import Mathlib

/-!
Verification of the SU2 reduced-SQP dispatcher and adapter layer
(`SU2_PY/SU2/opt/reducedSQP.py`).

Real numbers are modelled by `ℚ` (only sums and negations occur here, so no
precision issues arise).  Python lists and numpy 1-d arrays are `List ℚ`;
numpy 2-d arrays are `List (List ℚ)`.  Code that can raise an exception is
modelled in `Option` (`none` = the exception propagates).  Values that may be
`None`, a plain list, or a numpy array are modelled by `PyValue`, so that the
three shapes stay distinguishable.

The adapter callbacks (`f`, `df`, `ddf`, `feq`, `fieq`) read the active
project through the module-global `glob_project`; the embedding passes that
project explicitly as a first argument, which is faithful for any single
invocation during which the global holds the given project.
-/

namespace ReducedSQP

/-- The external project/model object, as consumed by `reducedSQP.py`:
a configuration lookup (`project.config['SQP_MODE']`) plus the evaluation
operations used by the adapter callbacks.  All evaluations are keyed by the
design-variable vector `x`. -/
structure Project where
  config : String → String
  obj_f : List ℚ → List ℚ
  obj_df : List ℚ → List (List ℚ)
  obj_ddf : List ℚ → List (List ℚ)
  con_ceq : List ℚ → List ℚ
  con_cieq : List ℚ → List ℚ

/-- A Python value that is either a numpy 1-d array, a plain Python list, or
`None`.  Used to state that the constraint adapters always produce a numpy
array (possibly of zero length), never a bare list or `None`. -/
inductive PyValue where
  | arr (v : List ℚ)
  | pylist (v : List ℚ)
  | pyNone
deriving DecidableEq

/-- Embedding of `np.zeros([n])`: a length-`n` vector of zeros. -/
def np_zeros (n : Nat) : List ℚ :=
  List.replicate n 0

/-- Embedding of `np.identity(n)`: the `n × n` identity matrix as a list of
rows. -/
def np_identity (n : Nat) : List (List ℚ) :=
  (List.range n).map (fun i => (List.range n).map (fun j => if j = i then 1 else 0))

/-- Embedding of `unit_hessian(x, project)`:
`return np.identity(np.size(x))`.  The `project` argument is unused. -/
def unit_hessian (x : List ℚ) (project : Project) : List (List ℚ) :=
  np_identity x.length

/-- Embedding of the scalar objective adapter `f(x)`:
starts from the integer `0` and accumulates every entry of
`glob_project.obj_f(x)` with `obj = obj + this_obj`. -/
def f (project : Project) (x : List ℚ) : ℚ :=
  (project.obj_f x).foldl (fun obj this_obj => obj + this_obj) 0

/-- Embedding of the inner accumulation loop of `df`/`ddf`:
`for this_dv_dobj in this_dobj: dobj[idv] += this_dv_dobj; idv += 1`.
Walking off the end of `dobj` (a contribution longer than the accumulator)
raises `IndexError`, modelled as `none`; a contribution shorter than the
accumulator leaves the trailing accumulator entries untouched. -/
def addInto : List ℚ → List ℚ → Option (List ℚ)
  | dobj, [] => some dobj
  | [], _ :: _ => none
  | d :: ds, c :: cs => (addInto ds cs).map (fun r => (d + c) :: r)

/-- Embedding of the outer loop of `df`/`ddf`:
`for this_dobj in dobj_list: …` threading the accumulator through
`addInto`, propagating any `IndexError`. -/
def df_loop : List (List ℚ) → List ℚ → Option (List ℚ)
  | [], dobj => some dobj
  | c :: cs, dobj =>
    match addInto dobj c with
    | none => none
    | some d => df_loop cs d

/-- Embedding of the gradient adapter `df(x)`:
`dobj = [0.0]*len(dobj_list[0])` (an `IndexError`, i.e. `none`, when the
contribution list is empty) followed by the accumulation loops, returning
`np.array(dobj)`. -/
def df (project : Project) (x : List ℚ) : Option (List ℚ) :=
  match project.obj_df x with
  | [] => none
  | first :: rest => df_loop (first :: rest) (List.replicate first.length (0 : ℚ))

/-- Embedding of the Hessian adapter `ddf(x)`: same aggregation pattern as
`df`, applied to `glob_project.obj_ddf(x)`. -/
def ddf (project : Project) (x : List ℚ) : Option (List ℚ) :=
  match project.obj_ddf x with
  | [] => none
  | first :: rest => df_loop (first :: rest) (List.replicate first.length (0 : ℚ))

/-- Embedding of the equality-constraint adapter `feq(x)`:
`if cons: cons = np.array(cons) else: cons = np.zeros([0]); return cons`.
Python truthiness of a list is non-emptiness. -/
def feq (project : Project) (x : List ℚ) : PyValue :=
  let cons := project.con_ceq x
  if cons.isEmpty then PyValue.arr (np_zeros 0) else PyValue.arr cons

/-- Embedding of the inequality-constraint adapter `fieq(x)`:
as `feq` but returning `-cons` (numpy element-wise negation). -/
def fieq (project : Project) (x : List ℚ) : PyValue :=
  let cons := project.con_cieq x
  let arr := if cons.isEmpty then np_zeros 0 else cons
  PyValue.arr (arr.map (fun v => -v))

/-- The curvature argument that the dispatcher actually hands to a back end:
either one of the caller-supplied opaque handles (of abstract type `H`) or the
module-level `unit_hessian` function, carried as the concrete Lean function so
that the substitution made by the `SIMPLIFIED` branch is recorded exactly. -/
inductive HessianSlot (H : Type) where
  | supplied (handle : H)
  | fallback (fn : List ℚ → Project → List (List ℚ))

/-- The one back-end call that `reduced_sqp` makes, with every argument it
passes recorded.  Function handles are opaque values of type `H`; `x0`,
`iter`, `acc`, `xb` are opaque values of types `X`, `I`, `A`, `B`.
`scipyTrustConstr` records the publication of the project to the global
evaluation state together with the pass-through numeric arguments; the
adapter callbacks it installs are the module-level `f`/`df`/`ddf`/`feq`/`fieq`
above.  The trailing `None` argument of the custom back ends is constant and
omitted. -/
inductive BackendInvocation (X H I A B : Type) where
  | scipyTrustConstr (glob : Project) (x0 : X) (xb : B) (acc : A) (iter : I)
  | sqpConstrained (x0 : X)
      (func f_eqcons f_ieqcons fprime fprime_eqcons fprime_ieqcons : H)
      (fdotdot : HessianSlot H) (project : Project) (iter : I) (acc : A)
  | sqpEqualConstrained (x0 : X) (func f_eqcons fprime fprime_eqcons : H)
      (fdotdot : HessianSlot H) (project : Project) (iter : I) (acc : A)

/-- Observable outcome of one call to `reduced_sqp`: the lines written to
standard output, and the back-end invocation made (`none` when no back end
runs; in that case the final `return outputs` reads an unbound local, so the
Python function raises instead of returning a value). -/
structure DispatchResult (X H I A B : Type) where
  messages : List String
  invocation : Option (BackendInvocation X H I A B)

/-- Embedding of the dispatcher `reduced_sqp(x0, func, f_eqcons, f_ieqcons,
fprime, fprime_eqcons, fprime_ieqcons, fdotdot, project, iter, acc, xb)`:
reads `project.config['SQP_MODE']` and selects exactly one branch, recording
the stdout writes and the back-end call with the arguments the source passes
in that branch. -/
def reduced_sqp {X H I A B : Type}
    (x0 : X) (func f_eqcons f_ieqcons fprime fprime_eqcons fprime_ieqcons fdotdot : H)
    (project : Project) (iter : I) (acc : A) (xb : B) :
    DispatchResult X H I A B :=
  let SQP_MODE := project.config "SQP_MODE"
  if SQP_MODE = "SCIPY" then
    { messages := [],
      invocation := some (.scipyTrustConstr project x0 xb acc iter) }
  else if SQP_MODE = "SQP_CVXOPT" then
    { messages := ["Using implemented SQP version. \n"],
      invocation := some (.sqpConstrained x0 func f_eqcons f_ieqcons fprime
        fprime_eqcons fprime_ieqcons (.supplied fdotdot) project iter acc) }
  else if SQP_MODE = "SQP_LES" then
    { messages := ["Using implemented SQP version. \n"],
      invocation := some (.sqpEqualConstrained x0 func f_eqcons fprime
        fprime_eqcons (.supplied fdotdot) project iter acc) }
  else if SQP_MODE = "SIMPLIFIED" then
    { messages := ["Using simplified SQP iterations \n"],
      invocation := some (.sqpEqualConstrained x0 func f_eqcons fprime
        fprime_eqcons (.fallback unit_hessian) project iter acc) }
  else
    { messages := ["Please choose a valid SQP_MODE! \n"],
      invocation := none }

/-! Concrete projects used to instantiate the theorems below on explicit
inputs.  They return the given constant lists at every `x`. -/

/-- A project returning fixed evaluation lists at every `x`, with the given
mode string, used to build explicit instances. -/
def mkProject (mode : String) (objs : List ℚ) (grads : List (List ℚ))
    (ceq cieq : List ℚ) : Project where
  config := fun _ => mode
  obj_f := fun _ => objs
  obj_df := fun _ => grads
  obj_ddf := fun _ => grads
  con_ceq := fun _ => ceq
  con_cieq := fun _ => cieq

/-- The end-to-end example of the spec: objective contributions `[3, -1]`,
per-objective gradients `[[1, 2], [1/2, -1/2]]`, no equality constraints,
inequality values `[-2, 1/2]`. -/
def exampleProject : Project :=
  mkProject "SCIPY" [3, -1] [[1, 2], [1/2, -1/2]] [] [-2, 1/2]

/-- A project reporting no equality and no inequality constraints. -/
def emptyConsProject : Project :=
  mkProject "SCIPY" [3, -1] [[1, 2]] [] []

/-- A project whose gradient-contribution list is empty. -/
def emptyGradProject : Project :=
  mkProject "SCIPY" [3] [] [] []

/-- A project whose later gradient contributions are shorter than the first. -/
def raggedGradProject : Project :=
  mkProject "SCIPY" [3] [[1, 2, 3], [10], [100, 200]] [] []

/-- A project configured with mode `SIMPLIFIED`. -/
def simplProject : Project :=
  mkProject "SIMPLIFIED" [] [] [] []

/-- A project configured with mode `SQP_LES`. -/
def lesProject : Project :=
  mkProject "SQP_LES" [] [] [] []

/-- A project configured with the unrecognized mode `BOGUS`. -/
def bogusProject : Project :=
  mkProject "BOGUS" [] [] [] []

/-! Helper lemmas. -/

/-- Folding `+` over a list starting from `a` yields `a` plus the sum. -/
lemma foldl_add_eq_sum (l : List ℚ) (a : ℚ) :
    l.foldl (fun obj this_obj => obj + this_obj) a = a + l.sum := by
  induction l generalizing a with
  | nil => simp
  | cons b bs ih => simp [ih, add_assoc]

/-- In range, `getD` commutes with element-wise negation. -/
lemma getD_map_neg (l : List ℚ) (i : Nat) (h : i < l.length) :
    (l.map (fun v => -v)).getD i 0 = -(l.getD i 0) := by
  induction l generalizing i with
  | nil => simp at h
  | cons a as ih =>
    cases i with
    | zero => simp
    | succ j => simpa using ih j (by simpa using h)

/-- C1: for every design-variable vector `x`, the scalar objective adapter
`f` returns exactly the sum of the project's objective-contribution list at
`x`, and exactly `0` when that list is empty. -/
theorem f_eq_sum (project : Project) (x : List ℚ) :
    f project x = (project.obj_f x).sum ∧
    (project.obj_f x = [] → f project x = 0) := by
  refine ⟨by simp [f, foldl_add_eq_sum], fun h => by simp [f, h]⟩

/-- C1 witness: `f` on the spec's example project, whose contribution list is
`[3, -1]` at every `x`. -/
theorem f_eq_sum_witness :
    f exampleProject [0] = (exampleProject.obj_f [0]).sum ∧
    (exampleProject.obj_f [0] = [] → f exampleProject [0] = 0) :=
  f_eq_sum exampleProject [0]

/-- C3: for every `x` at which the project's inequality-constraint vector is
non-empty, `fieq` returns a numpy array that is its element-wise negation:
same length, and element `i` equal to `-raw[i]` for every index `i`. -/
theorem fieq_neg (project : Project) (x : List ℚ)
    (hne : project.con_cieq x ≠ []) :
    ∃ out, fieq project x = PyValue.arr out ∧
      out.length = (project.con_cieq x).length ∧
      ∀ i, i < (project.con_cieq x).length →
        out.getD i 0 = -((project.con_cieq x).getD i 0) := by
  obtain ⟨a, as, hcons⟩ : ∃ a as, project.con_cieq x = a :: as := by
    cases hl : project.con_cieq x with
    | nil => exact absurd hl hne
    | cons a as => exact ⟨a, as, rfl⟩
  refine ⟨(project.con_cieq x).map (fun v => -v), ?_, by simp, ?_⟩
  · simp [fieq, hcons]
  · intro i hi
    exact getD_map_neg _ i hi

/-- C3 witness: `fieq` on the spec's example project, whose inequality vector
is `[-2, 1/2]` at every `x`. -/
theorem fieq_neg_witness :
    ∃ out, fieq exampleProject [0] = PyValue.arr out ∧
      out.length = (exampleProject.con_cieq [0]).length ∧
      ∀ i, i < (exampleProject.con_cieq [0]).length →
        out.getD i 0 = -((exampleProject.con_cieq [0]).getD i 0) :=
  fieq_neg exampleProject [0] (by decide)

/-- C4: on an empty equality-constraint list `feq` returns the zero-length
numpy array (not `None` and not a bare Python list), and likewise `fieq` on
an empty inequality-constraint list. -/
theorem empty_cons_zero_length (project : Project) (x : List ℚ) :
    (project.con_ceq x = [] →
      feq project x = PyValue.arr [] ∧ feq project x ≠ PyValue.pyNone ∧
        ∀ v, feq project x ≠ PyValue.pylist v) ∧
    (project.con_cieq x = [] →
      fieq project x = PyValue.arr [] ∧ fieq project x ≠ PyValue.pyNone ∧
        ∀ v, fieq project x ≠ PyValue.pylist v) := by
  constructor
  · intro h
    refine ⟨by simp [feq, h, np_zeros], by simp [feq, h, np_zeros], ?_⟩
    intro v
    simp [feq, h, np_zeros]
  · intro h
    refine ⟨by simp [fieq, h, np_zeros], by simp [fieq, h, np_zeros], ?_⟩
    intro v
    simp [fieq, h, np_zeros]

/-- C4 witness: both adapters on a project with no constraints. -/
theorem empty_cons_zero_length_witness :
    feq emptyConsProject [0] = PyValue.arr [] ∧
    fieq emptyConsProject [0] = PyValue.arr [] :=
  ⟨((empty_cons_zero_length emptyConsProject [0]).1 rfl).1,
   ((empty_cons_zero_length emptyConsProject [0]).2 rfl).1⟩

/-- `getD` on a vector of zeros is `0` at every index. -/
lemma getD_replicate_zero (n i : Nat) :
    (List.replicate n (0 : ℚ)).getD i 0 = 0 := by
  induction n generalizing i with
  | zero => simp
  | succ m ih =>
    cases i with
    | zero => simp
    | succ j => simpa [List.replicate_succ] using ih j

/-- `addInto` succeeds whenever the contribution is no longer than the
accumulator, keeps the accumulator's length, and adds point-wise (reading a
missing trailing entry of the contribution as `0`). -/
lemma addInto_spec (c d : List ℚ) (h : c.length ≤ d.length) :
    ∃ r, addInto d c = some r ∧ r.length = d.length ∧
      ∀ i, r.getD i 0 = d.getD i 0 + c.getD i 0 := by
  induction c generalizing d with
  | nil =>
    exact ⟨d, by simp [addInto], rfl, fun i => by simp⟩
  | cons a as ih =>
    cases d with
    | nil => simp at h
    | cons b bs =>
      obtain ⟨r, hr, hlen, hget⟩ := ih bs (by simpa using h)
      refine ⟨(b + a) :: r, by simp [addInto, hr], by simp [hlen], ?_⟩
      intro i
      cases i with
      | zero => simp
      | succ j => simpa using hget j

/-- The accumulation loop succeeds whenever every contribution is no longer
than the accumulator, keeps the accumulator's length, and at every index adds
the contributions' entries at that index (missing trailing entries read as
`0`). -/
lemma df_loop_spec (l : List (List ℚ)) (d : List ℚ)
    (h : ∀ c ∈ l, c.length ≤ d.length) :
    ∃ r, df_loop l d = some r ∧ r.length = d.length ∧
      ∀ i, r.getD i 0 = d.getD i 0 + (l.map (fun c => c.getD i 0)).sum := by
  induction l generalizing d with
  | nil => exact ⟨d, by simp [df_loop], rfl, fun i => by simp⟩
  | cons c cs ih =>
    obtain ⟨r1, hr1, hlen1, hget1⟩ := addInto_spec c d (h c (List.mem_cons_self c cs))
    obtain ⟨r, hr, hlen, hget⟩ := ih r1 (fun c' hc' => by
      rw [hlen1]; exact h c' (List.mem_cons_of_mem c hc'))
    refine ⟨r, by simp [df_loop, hr1, hr], by rw [hlen, hlen1], ?_⟩
    intro i
    rw [hget i, hget1 i]
    simp [add_assoc]

/-- C2: at every `x` where the gradient-contribution list is non-empty and
all contributions have length `n`, the gradient adapter `df` succeeds with a
length-`n` vector whose element `i` is the sum over all contributions of
their element `i`. -/
theorem df_elementwise_sum (project : Project) (x : List ℚ) (n : Nat)
    (hne : project.obj_df x ≠ [])
    (hlen : ∀ c ∈ project.obj_df x, c.length = n) :
    ∃ v, df project x = some v ∧ v.length = n ∧
      ∀ i, i < n →
        v.getD i 0 = ((project.obj_df x).map (fun c => c.getD i 0)).sum := by
  cases hl : project.obj_df x with
  | nil => exact absurd hl hne
  | cons first rest =>
    have hfirst : first.length = n := hlen first (hl ▸ List.mem_cons_self _ _)
    obtain ⟨r, hr, hrlen, hget⟩ := df_loop_spec (first :: rest)
      (List.replicate first.length 0)
      (fun c hc => by rw [List.length_replicate, hfirst, hlen c (hl ▸ hc)])
    refine ⟨r, by simp [df, hl, hr], by simp [hrlen, hfirst], ?_⟩
    intro i hi
    rw [hget i, getD_replicate_zero]
    simp

/-- C2 witness: `df` on the spec's example project, whose contribution list
at every `x` is `[[1, 2], [1/2, -1/2]]` (two contributions of length 2). -/
theorem df_elementwise_sum_witness :
    ∃ v, df exampleProject [0] = some v ∧ v.length = 2 ∧
      ∀ i, i < 2 →
        v.getD i 0 = ((exampleProject.obj_df [0]).map (fun c => c.getD i 0)).sum :=
  df_elementwise_sum exampleProject [0] 2 (by decide) (by decide)

/-- C8 counterexample: on a project whose gradient-contribution list is
empty, `df` raises (the `IndexError` from `dobj_list[0]`, modelled as `none`)
instead of returning a zero vector. -/
theorem df_empty_counterexample :
    df emptyGradProject [0] = none ∧ (df emptyGradProject [0]).isSome = false := by
  constructor <;> rfl

/-- C8 amended: at every `x` where the project's gradient-contribution list
is empty, the gradient adapter fails (an `IndexError` while reading the first
contribution's length, modelled as `none`); it returns no vector at all. -/
theorem df_empty_raises (project : Project) (x : List ℚ)
    (h : project.obj_df x = []) :
    df project x = none := by
  simp [df, h]

/-- C8 amended-theorem witness: the failure on a concrete project with an
empty gradient-contribution list. -/
theorem df_empty_raises_witness :
    df emptyGradProject [1] = none :=
  df_empty_raises emptyGradProject [1] rfl

/-- C10: the gradient adapter validates no lengths: when the contribution
list is non-empty and every later contribution is shorter than the first, it
raises no error and returns a vector of the first contribution's length in
which each contribution is summed only over its own indices (missing trailing
entries contribute nothing, here expressed by `getD _ 0` reading `0` past a
contribution's end). -/
theorem df_no_length_validation (project : Project) (x : List ℚ)
    (first : List ℚ) (rest : List (List ℚ))
    (hx : project.obj_df x = first :: rest)
    (hshort : ∀ c ∈ rest, c.length < first.length) :
    ∃ v, df project x = some v ∧ v.length = first.length ∧
      ∀ i, v.getD i 0 = ((project.obj_df x).map (fun c => c.getD i 0)).sum := by
  obtain ⟨r, hr, hrlen, hget⟩ := df_loop_spec (first :: rest)
    (List.replicate first.length 0)
    (fun c hc => by
      rw [List.length_replicate]
      rcases List.mem_cons.mp hc with h1 | h2
      · exact h1 ▸ le_refl _
      · exact le_of_lt (hshort c h2))
  refine ⟨r, by simp [df, hx, hr], by simp [hrlen], ?_⟩
  intro i
  rw [hx, hget i, getD_replicate_zero]
  simp

/-- C10 witness: `df` on a project whose contributions are `[[1, 2, 3],
[10], [100, 200]]` (later ones shorter than the first). -/
theorem df_no_length_validation_witness :
    ∃ v, df raggedGradProject [0] = some v ∧ v.length = 3 ∧
      ∀ i, v.getD i 0 =
        ((raggedGradProject.obj_df [0]).map (fun c => c.getD i 0)).sum :=
  df_no_length_validation raggedGradProject [0] [1, 2, 3] [[10], [100, 200]]
    rfl (by decide)

/-- In range, `getD` over a mapped range evaluates the mapped function. -/
lemma getD_range_map {α : Type} (g : Nat → α) (dflt : α) (n i : Nat)
    (h : i < n) :
    ((List.range n).map g).getD i dflt = g i := by
  rw [List.getD_eq_getElem?_getD, List.getElem?_map, List.getElem?_range h]
  rfl

/-- C9: for every input vector `x` and every project, `unit_hessian` returns
the `n × n` identity matrix with `n = x.length`: `n` rows of length `n`,
entry `(i, j)` equal to `1` when `i = j` and `0` otherwise; and the result
depends only on the length of `x`, not on the project or the values in `x`. -/
theorem unit_hessian_identity_matrix (x : List ℚ) (project : Project) :
    (unit_hessian x project).length = x.length ∧
    (∀ row ∈ unit_hessian x project, row.length = x.length) ∧
    (∀ i j, i < x.length → j < x.length →
      ((unit_hessian x project).getD i []).getD j 0 =
        if i = j then 1 else 0) ∧
    (∀ (y : List ℚ) (q : Project), y.length = x.length →
      unit_hessian y q = unit_hessian x project) := by
  refine ⟨by simp [unit_hessian, np_identity], ?_, ?_, ?_⟩
  · intro row hrow
    simp only [unit_hessian, np_identity, List.mem_map] at hrow
    obtain ⟨i, hi, rfl⟩ := hrow
    simp
  · intro i j hi hj
    simp only [unit_hessian, np_identity]
    rw [getD_range_map _ _ _ _ hi, getD_range_map _ _ _ _ hj]
    by_cases hij : i = j
    · simp [hij]
    · simp [hij, Ne.symm hij]
  · intro y q hy
    simp only [unit_hessian, hy]

/-- C9 witness: the fallback on a length-3 vector. -/
theorem unit_hessian_identity_matrix_witness :
    (unit_hessian [5, 5, 5] simplProject).length = ([5, 5, 5] : List ℚ).length ∧
    (∀ row ∈ unit_hessian [5, 5, 5] simplProject,
      row.length = ([5, 5, 5] : List ℚ).length) ∧
    (∀ i j, i < ([5, 5, 5] : List ℚ).length → j < ([5, 5, 5] : List ℚ).length →
      ((unit_hessian [5, 5, 5] simplProject).getD i []).getD j 0 =
        if i = j then 1 else 0) ∧
    (∀ (y : List ℚ) (q : Project), y.length = ([5, 5, 5] : List ℚ).length →
      unit_hessian y q = unit_hessian [5, 5, 5] simplProject) :=
  unit_hessian_identity_matrix [5, 5, 5] simplProject

/-- C5: with mode `SIMPLIFIED` the dispatcher invokes the equality-only back
end with the Hessian Fallback `unit_hessian` in the curvature slot, and the
fallback slot is distinct from every supplied-handle slot, so the supplied
curvature handle is never passed to that back end. -/
theorem simplified_substitutes_fallback {X H I A B : Type}
    (x0 : X) (func f_eqcons f_ieqcons fprime fprime_eqcons fprime_ieqcons fdotdot : H)
    (project : Project) (iter : I) (acc : A) (xb : B)
    (hmode : project.config "SQP_MODE" = "SIMPLIFIED") :
    (reduced_sqp x0 func f_eqcons f_ieqcons fprime fprime_eqcons
        fprime_ieqcons fdotdot project iter acc xb).invocation =
      some (BackendInvocation.sqpEqualConstrained x0 func f_eqcons fprime
        fprime_eqcons (HessianSlot.fallback unit_hessian) project iter acc) ∧
    (∀ handle : H,
      HessianSlot.fallback (H := H) unit_hessian ≠ HessianSlot.supplied handle) := by
  constructor
  · simp only [reduced_sqp, hmode]
    rfl
  · intro handle hcontra
    exact HessianSlot.noConfusion hcontra

/-- C5 witness: the dispatcher on a concrete `SIMPLIFIED` project, handle
slots instantiated with natural-number tokens. -/
theorem simplified_substitutes_fallback_witness :
    (reduced_sqp (X := Nat) (I := Nat) (A := Nat) (B := Nat)
        0 1 2 3 4 5 6 7 simplProject 8 9 10).invocation =
      some (BackendInvocation.sqpEqualConstrained 0 1 2 4 5
        (HessianSlot.fallback unit_hessian) simplProject 8 9) ∧
    (∀ handle : Nat,
      HessianSlot.fallback (H := Nat) unit_hessian ≠ HessianSlot.supplied handle) :=
  simplified_substitutes_fallback 0 1 2 3 4 5 6 7 simplProject 8 9 10 rfl

/-- C6: with mode `SQP_LES` the dispatcher's observable behaviour (stdout
messages and back-end invocation) does not depend on the inequality handles
`f_ieqcons` and `fprime_ieqcons`, and the invocation it makes carries no
inequality handle at all. -/
theorem sqp_les_ignores_inequality {X H I A B : Type}
    (x0 : X) (func f_eqcons fprime fprime_eqcons fdotdot : H)
    (f_ieqcons f_ieqcons2 fprime_ieqcons fprime_ieqcons2 : H)
    (project : Project) (iter : I) (acc : A) (xb : B)
    (hmode : project.config "SQP_MODE" = "SQP_LES") :
    reduced_sqp x0 func f_eqcons f_ieqcons fprime fprime_eqcons
        fprime_ieqcons fdotdot project iter acc xb =
      reduced_sqp x0 func f_eqcons f_ieqcons2 fprime fprime_eqcons
        fprime_ieqcons2 fdotdot project iter acc xb ∧
    (reduced_sqp x0 func f_eqcons f_ieqcons fprime fprime_eqcons
        fprime_ieqcons fdotdot project iter acc xb).invocation =
      some (BackendInvocation.sqpEqualConstrained x0 func f_eqcons fprime
        fprime_eqcons (HessianSlot.supplied fdotdot) project iter acc) := by
  constructor
  · simp only [reduced_sqp, hmode]
    rfl
  · simp only [reduced_sqp, hmode]
    rfl

/-- C6 witness: the dispatcher on a concrete `SQP_LES` project, with two
different pairs of inequality handles. -/
theorem sqp_les_ignores_inequality_witness :
    reduced_sqp (X := Nat) (I := Nat) (A := Nat) (B := Nat)
        0 1 2 30 4 5 60 7 lesProject 8 9 10 =
      reduced_sqp 0 1 2 31 4 5 61 7 lesProject 8 9 10 ∧
    (reduced_sqp (X := Nat) (I := Nat) (A := Nat) (B := Nat)
        0 1 2 30 4 5 60 7 lesProject 8 9 10).invocation =
      some (BackendInvocation.sqpEqualConstrained 0 1 2 4 5
        (HessianSlot.supplied 7) lesProject 8 9) :=
  sqp_les_ignores_inequality 0 1 2 4 5 7 30 31 60 61 lesProject 8 9 10 rfl

/-- C7: with an unrecognized mode (none of `SCIPY`, `SQP_CVXOPT`, `SQP_LES`,
`SIMPLIFIED`) the dispatcher writes exactly the invalid-configuration
diagnostic and makes no back-end invocation; since the local `outputs` is
then unbound at `return outputs`, no result value is returned. -/
theorem invalid_mode_no_backend {X H I A B : Type}
    (x0 : X) (func f_eqcons f_ieqcons fprime fprime_eqcons fprime_ieqcons fdotdot : H)
    (project : Project) (iter : I) (acc : A) (xb : B)
    (h1 : project.config "SQP_MODE" ≠ "SCIPY")
    (h2 : project.config "SQP_MODE" ≠ "SQP_CVXOPT")
    (h3 : project.config "SQP_MODE" ≠ "SQP_LES")
    (h4 : project.config "SQP_MODE" ≠ "SIMPLIFIED") :
    (reduced_sqp x0 func f_eqcons f_ieqcons fprime fprime_eqcons
        fprime_ieqcons fdotdot project iter acc xb).messages =
      ["Please choose a valid SQP_MODE! \n"] ∧
    (reduced_sqp x0 func f_eqcons f_ieqcons fprime fprime_eqcons
        fprime_ieqcons fdotdot project iter acc xb).invocation = none := by
  constructor
  · simp only [reduced_sqp]
    rw [if_neg h1, if_neg h2, if_neg h3, if_neg h4]
  · simp only [reduced_sqp]
    rw [if_neg h1, if_neg h2, if_neg h3, if_neg h4]

/-- C7 witness: the dispatcher on a project configured with the unrecognized
mode string `BOGUS`. -/
theorem invalid_mode_no_backend_witness :
    (reduced_sqp (X := Nat) (H := Nat) (I := Nat) (A := Nat) (B := Nat)
        0 1 2 3 4 5 6 7 bogusProject 8 9 10).messages =
      ["Please choose a valid SQP_MODE! \n"] ∧
    (reduced_sqp (X := Nat) (H := Nat) (I := Nat) (A := Nat) (B := Nat)
        0 1 2 3 4 5 6 7 bogusProject 8 9 10).invocation = none :=
  invalid_mode_no_backend 0 1 2 3 4 5 6 7 bogusProject 8 9 10
    (by decide) (by decide) (by decide) (by decide)

end ReducedSQP
